import Mathlib

/-!
A shallow embedding of `mkdocs/build.py` (navigation building, TOC parsing,
URL resolution and the per-page link rewrite), together with theorems that
settle the specification claims against it.

Strings are modelled as Lean `String`s; the Python string primitives used by
the source (`splitlines`, `partition`, `strip`, `rstrip`, `endswith`,
`startswith`, `replace`, `os.path.splitext`) are embedded explicitly below.
Fallible Python code (`list.pop` on an empty list, `list.index` on a missing
element) is embedded with `Option`, `none` standing for the raised exception.
-/

/-- Concatenation of two strings, written out over their character lists. -/
def strCat (a b : String) : String := ⟨a.data ++ b.data⟩

/-- Python `s.endswith(t)`. -/
def pyEndsWith (s t : String) : Bool := t.data.reverse.isPrefixOf s.data.reverse

/-- Python `s.startswith(t)`. -/
def pyStartsWith (s t : String) : Bool := t.data.isPrefixOf s.data

/-- Python `s.rstrip(cs)`: remove all trailing characters that belong to `cs`. -/
def pyRstrip (s : String) (cs : List Char) : String :=
  ⟨(s.data.reverse.dropWhile (fun c => cs.contains c)).reverse⟩

/-- Python whitespace characters (the ASCII ones; titles only use these). -/
def pyWhitespace : List Char := [' ', '\t', '\n', '\r', '\x0b', '\x0c']

/-- Python `s.strip()`: remove leading and trailing whitespace. -/
def pyStrip (s : String) : String :=
  ⟨((s.data.dropWhile (fun c => pyWhitespace.contains c)).reverse.dropWhile
      (fun c => pyWhitespace.contains c)).reverse⟩

/-- Python `s.replace(os.path.pathsep, '/')`; `os.path.pathsep` is `':'` on
POSIX (a single character, so `replace` is a character map). -/
def pyReplacePathsep (s : String) : String :=
  ⟨s.data.map (fun c => if c = ':' then '/' else c)⟩

/-- Split a character list at every `'\n'`. -/
def splitNl (cur : List Char) : List Char → List (List Char)
  | [] => [cur.reverse]
  | c :: rest => if c = '\n' then cur.reverse :: splitNl [] rest
                 else splitNl (c :: cur) rest

/-- Python `s.splitlines()` for strings whose line breaks are `'\n'`:
no trailing empty line is produced when the string ends with `'\n'`. -/
def pySplitlines (s : String) : List String :=
  if s.data = [] then []
  else
    let parts := (splitNl [] s.data).map (fun l => (⟨l⟩ : String))
    if s.data.getLast? = some '\n' then parts.dropLast else parts

/-- The stem part of Python `os.path.splitext(path)` (POSIX rules): split at
the last `'.'` that comes after the last `'/'`, unless every character
between that `'/'` and the dot is itself a dot (leading-dot basenames such as
`".bashrc"` keep their dot). -/
def pySplitextStem (p : String) : String :=
  let r := p.data.reverse
  let ext_r := r.takeWhile (fun c => c ≠ '.' && c ≠ '/')
  match r.drop ext_r.length with
  | '.' :: before_r =>
    if (before_r.takeWhile (fun c => c ≠ '/')).any (fun c => c ≠ '.') then
      ⟨before_r.reverse⟩
    else p
  | _ => p

/-- Python `title.partition('/')` projected to (before, after): split at the
first `'/'`; when there is none, `after` is the empty string. -/
def pyPartitionSlash (s : String) : String × String :=
  let pre := s.data.takeWhile (fun c => c ≠ '/')
  if pre.length = s.data.length then (s, "")
  else (⟨pre⟩, ⟨s.data.drop (pre.length + 1)⟩)

/-- The build configuration fields read by the embedded functions:
`config['pages']`, `config['base_url']` and `config['local_files']`. -/
structure Config where
  pages : List (String × String)
  base_url : String
  local_files : Bool

/-- Modelled from the spec: `mkdocs.utils.get_html_path` is not part of the
given source (only `mkdocs/build.py` is); per the spec's External Interfaces
section it "maps a source-relative doc path to its on-disk output path, e.g.
mapping document extension to `.html` and flattening `index` naming". -/
def get_html_path (path : String) : String :=
  let stem := pySplitextStem path
  let base := ⟨(stem.data.reverse.takeWhile (fun c => c ≠ '/')).reverse⟩
  if base = ("index" : String) then strCat stem ".html"
  else strCat stem "/index.html"

/-- Embeds `build.py` lines 212-226. -/
def path_to_url (path : String) (config : Config) : String :=
  if config.local_files then
    let p := get_html_path path
    let url := pyReplacePathsep p
    strCat (strCat config.base_url "/") url
  else
    let p := pySplitextStem path
    let url := pyReplacePathsep p
    let url := strCat (strCat config.base_url "/") url
    if url == "index" || pyEndsWith url "/index" then
      pyRstrip url ['i', 'n', 'd', 'e', 'x']
    else strCat url "/"

example : path_to_url "index.md" ⟨[], "", false⟩ = "/" := by decide
example : path_to_url "guide/install.md" ⟨[], "http://h", false⟩ =
    "http://h/guide/install/" := by decide
example : path_to_url "a.md" ⟨[], "", false⟩ = "/a/" := by decide

/-- Embeds `build.py` lines 14-18: a navigation node. `url` is `none` exactly for a
synthetic group header created with `url=None`. -/
inductive NavItem where
  | mk (title : String) (url : Option String) (children : List NavItem)
       (active : Bool)

def NavItem.title : NavItem → String
  | .mk t _ _ _ => t

def NavItem.url : NavItem → Option String
  | .mk _ u _ _ => u

def NavItem.children : NavItem → List NavItem
  | .mk _ _ cs _ => cs

def NavItem.active : NavItem → Bool
  | .mk _ _ _ a => a

/-- One iteration of the loop of `generate_nav` (`build.py` lines 164-181).
The accumulator holds the `ret` list in reverse order, so Python's
`ret[-1]` is the head and `ret.append` is `cons`. -/
def generate_nav_step (config : Config) (acc : List NavItem)
    (pt : String × String) : List NavItem :=
  let url := path_to_url pt.1 config
  let parts := pyPartitionSlash pt.2
  let title := pyStrip parts.1
  let child_title := pyStrip parts.2
  if child_title = "" then
    NavItem.mk title (some url) [] false :: acc
  else
    match acc with
    | [] => NavItem.mk title none [NavItem.mk child_title (some url) [] false]
              false :: acc
    | last :: rest =>
      if last.title ≠ title then
        NavItem.mk title none [NavItem.mk child_title (some url) [] false]
          false :: last :: rest
      else
        NavItem.mk last.title last.url
          (last.children ++ [NavItem.mk child_title (some url) [] false])
          last.active :: rest

/-- Embeds `build.py` lines 159-182. -/
def generate_nav (config : Config) : List NavItem :=
  (config.pages.foldl (generate_nav_step config) []).reverse

/-- A child of a top-level nav item after `set_nav_active` has reassigned its
`active` flag (`build.py` lines 201-207: `child.active = (child.url == url)`,
written as the two branches of the `if`). -/
def mark_child (url : String) (c : NavItem) : NavItem :=
  NavItem.mk c.title c.url c.children (decide (c.url = some url))

/-- A top-level nav item after `set_nav_active` (`build.py` lines 194-207):
its own flag is set by the `if nav_item.url == url` branch and then forced
true whenever some child url matches. -/
def set_nav_item (url : String) (n : NavItem) : NavItem :=
  NavItem.mk n.title n.url (n.children.map (mark_child url))
    (decide (n.url = some url) || n.children.any (fun c => decide (c.url = some url)))

/-- The last assignment Python's local variable `active` receives while the
loop body runs on one `nav_item`: the last matching child wins over the item
itself, and the returned objects carry their mutated flags. -/
def last_active_of_item (url : String) (n : NavItem) : Option NavItem :=
  match ((n.children.map (mark_child url)).filter
      (fun c => decide (c.url = some url))).getLast? with
  | some c => some c
  | none => if n.url = some url then some (set_nav_item url n) else none

/-- The value of Python's local variable `active` after the loop has run
over the remaining items, starting from `init`. -/
def nav_active_fold (url : String) (init : Option NavItem) :
    List NavItem → Option NavItem
  | [] => init
  | n :: rest =>
    nav_active_fold url
      (match last_active_of_item url n with
       | some x => some x
       | none => init) rest

/-- Embeds `build.py` lines 185-209: returns the tree with reassigned `active`
flags together with the returned `active` item (`none` for Python's `None`). -/
def set_nav_active (path : String) (config : Config) (nav : List NavItem) :
    List NavItem × Option NavItem :=
  let url := path_to_url path config
  (nav.map (set_nav_item url), nav_active_fold url none nav)

/-- The first match of `TOC_LINK_REGEX` (`build.py` line 11,
`<a href="..">..</a>`) when the pattern matches at the very start of `l`:
group 1 is the href (greedy run of non-quote characters, which must be
followed by `">`), group 2 the title (run of non-`<` characters, which must
be followed by `</a>`). -/
def toc_link_at (l : List Char) : Option (List Char × List Char) :=
  if ['<', 'a', ' ', 'h', 'r', 'e', 'f', '=', '"'].isPrefixOf l then
    let r := l.drop 9
    let href := r.takeWhile (fun c => c != '"')
    match r.drop href.length with
    | '"' :: '>' :: r2 =>
      let title := r2.takeWhile (fun c => c != '<')
      if ['<', '/', 'a', '>'].isPrefixOf (r2.drop title.length) then
        some (href, title)
      else none
    | _ => none
  else none

/-- Embeds `re.search` with `TOC_LINK_REGEX`: the leftmost position at which the
pattern matches. -/
def toc_link_search : List Char → Option (List Char × List Char)
  | [] => none
  | c :: rest =>
    match toc_link_at (c :: rest) with
    | some m => some m
    | none => toc_link_search rest

/-- An entry of the `parents` stack of `generate_toc`: title, href, and the
children appended to the open item so far. -/
abbrev TocOpen := String × String × List NavItem

/-- Place a finished nav item: append it to `parents[-1].children` when the
stack is non-empty, else to the top-level `ret` list (`build.py` 142-145). -/
def toc_attach (done : List NavItem) (stack : List TocOpen) (n : NavItem) :
    List NavItem × List TocOpen :=
  match stack with
  | [] => (done ++ [n], [])
  | (t, h, cs) :: rest => (done, (t, h, cs ++ [n]) :: rest)

/-- Embeds `parents.pop()` (`build.py` line 150): `none` is the `IndexError` Python
raises when the stack is empty. Popping an open item finalises it and places
it with `toc_attach` (in the mutable Python original the object was placed at
creation time and filled in through the stack alias; placement at pop time
yields the same tree because nothing is appended below the top of stack). -/
def toc_close (done : List NavItem) (stack : List TocOpen) :
    Option (List NavItem × List TocOpen) :=
  match stack with
  | [] => none
  | (t, h, cs) :: rest => some (toc_attach done rest (NavItem.mk t (some h) cs false))

/-- One line of the scanning loop of `generate_toc` (`build.py` 135-150). -/
def toc_line (st : List NavItem × List TocOpen) (line : String) :
    Option (List NavItem × List TocOpen) :=
  match toc_link_search line.data with
  | some (href, title) =>
    if pyEndsWith line "<ul>" then
      some (st.1, (⟨title⟩, ⟨href⟩, []) :: st.2)
    else
      some (toc_attach st.1 st.2 (NavItem.mk ⟨title⟩ (some ⟨href⟩) [] false))
  | none =>
    if pyStartsWith line "</ul>" then toc_close st.1 st.2 else some st

/-- Finalise items left open at the end of the scan (in Python they already
sit in `ret`/their parent; see `toc_close`). -/
def toc_flush (done : List NavItem) : List TocOpen → List NavItem
  | [] => done
  | (t, h, cs) :: rest =>
    done ++ [rest.foldl
      (fun inner pr => NavItem.mk pr.1 (some pr.2.1) (pr.2.2 ++ [inner]) false)
      (NavItem.mk t (some h) cs false)]

/-- Embeds `ret[0].active = True` (`build.py` 153-154). -/
def set_first_active : List NavItem → List NavItem
  | [] => []
  | NavItem.mk t u cs _ :: rest => NavItem.mk t u cs true :: rest

/-- Embeds `build.py` lines 126-156; `none` models the `IndexError` raised by
`parents.pop()` on an empty stack. `splitlines()[2:-2]` is `drop 2` followed
by removing the last two lines. -/
def generate_toc (toc_html : String) : Option (List NavItem) :=
  let lines0 := (pySplitlines toc_html).drop 2
  let lines := lines0.take (lines0.length - 2)
  match lines.foldlM toc_line ([], []) with
  | none => none
  | some (done, stack) => some (set_first_active (toc_flush done stack))

/-- Python `paths.index(path)` (`build.py` line 234): index of the first
exact string match, `none` for the raised `ValueError`. -/
def pyIndex (x : String) : List String → Option Nat
  | [] => none
  | y :: t => if y = x then some 0 else (pyIndex x t).map (· + 1)

/-- Embeds `build.py` lines 229-246; `none` models the `ValueError` raised by
`paths.index(path)` when `path` is not a declared page path. -/
def path_to_previous_and_next_urls (path : String) (config : Config) :
    Option (Option String × Option String) :=
  let paths := config.pages.map Prod.fst
  (pyIndex path paths).map (fun idx =>
    ((if idx = 0 then none
      else some (path_to_url (paths.getD (idx - 1) "") config)),
     (if idx + 1 ≥ paths.length then none
      else some (path_to_url (paths.getD (idx + 1) "") config))))

/-- The literal characters `a href=` (the part of the rewrite pattern of
`build.py` line 102 before the opening quote). -/
def pat7 : List Char := ['a', ' ', 'h', 'r', 'e', 'f', '=']

/-- The literal characters `a href="`. -/
def pat8 : List Char := pat7 ++ ['"']

lemma pat8_length : pat8.length = 8 := by decide

/-- Whether the character sequence `needle` occurs inside `haystack`. -/
def containsSeq (needle haystack : List Char) : Bool :=
  (List.range (haystack.length + 1)).any
    (fun n => needle.isPrefixOf (haystack.drop n))

/-- Embeds `PathToURL.__call__` (`build.py` lines 21-29): the text substituted for a
match whose group is `path`. -/
def PathToURL_call (config : Config) (path : String) : List Char :=
  pat8 ++ (path_to_url path config).data ++ ['"']

/-- A match of `re` pattern `a href="([^"]*\.md)"` anchored at the start of
`l`: the group runs to the first quote after `a href="` and must end in
`.md`. Returns the group and the text after the match. -/
def md_link_at (l : List Char) : Option (List Char × List Char) :=
  if pat8.isPrefixOf l then
    let r := l.drop 8
    let v := r.takeWhile (fun c => c != '"')
    match r.drop v.length with
    | '"' :: rest => if ['.', 'm', 'd'].isSuffixOf v then some (v, rest) else none
    | _ => none
  else none

lemma length_takeWhile_le (p : Char → Bool) (l : List Char) :
    (l.takeWhile p).length ≤ l.length := by
  induction l with
  | nil => simp
  | cons a t ih =>
    rw [List.takeWhile_cons]
    split
    · simpa using Nat.succ_le_succ ih
    · simp

lemma isPrefixOf_eq_true_iff :
    ∀ (l₁ l₂ : List Char), l₁.isPrefixOf l₂ = true ↔ ∃ t, l₁ ++ t = l₂
  | [], l₂ => by simp [List.isPrefixOf]
  | a :: as, [] => by simp [List.isPrefixOf]
  | a :: as, b :: bs => by
    simp only [List.isPrefixOf, Bool.and_eq_true, beq_iff_eq]
    constructor
    · rintro ⟨rfl, h⟩
      rcases (isPrefixOf_eq_true_iff as bs).mp h with ⟨t, ht⟩
      exact ⟨t, by rw [List.cons_append, ht]⟩
    · rintro ⟨t, ht⟩
      injection ht with h1 h2
      exact ⟨h1, (isPrefixOf_eq_true_iff as bs).mpr ⟨t, h2⟩⟩

lemma md_link_at_length {l v rest} (h : md_link_at l = some (v, rest)) :
    rest.length + 9 ≤ l.length := by
  simp only [md_link_at] at h
  split at h
  · rename_i hpre
    split at h
    · rename_i heq
      split at h
      · simp only [Option.some.injEq, Prod.mk.injEq] at h
        obtain ⟨hv, hr⟩ := h
        subst hv hr
        have h1 : (l.drop 8).length ≥
            ((l.drop 8).takeWhile (fun c => c != '"')).length :=
          length_takeWhile_le _ _
        have h2 := congrArg List.length heq
        simp only [List.length_drop, List.length_cons] at h2 h1 ⊢
        have h3 : 8 ≤ l.length := by
          rcases (isPrefixOf_eq_true_iff pat8 l).mp hpre with ⟨t2, ht2⟩
          have h4 := congrArg List.length ht2
          simp only [List.length_append, pat8_length] at h4
          omega
        omega
      · exact absurd h (by simp)
    · exact absurd h (by simp)
  · exact absurd h (by simp)

/-- Embeds `re.sub(r'a href="([^"]*\.md)"', PathToURL(config), content)`
(`build.py` line 102): scan left to right, replace each non-overlapping
match, leave everything else untouched, never rescan replacement text. -/
def sub_md_links (config : Config) : List Char → List Char
  | [] => []
  | c :: rest =>
    match h : md_link_at (c :: rest) with
    | some (v, after) => PathToURL_call config ⟨v⟩ ++ sub_md_links config after
    | none => c :: sub_md_links config rest
termination_by l => l.length
decreasing_by
  · have := md_link_at_length h
    simp only [List.length_cons] at this ⊢
    omega
  · simp

/-! ## Concrete configurations and fragments used by the claims -/

/-- The page list of claim C1. -/
def cfgC1 : Config :=
  ⟨[("a.md", "Intro"), ("b.md", "Guide/Setup"), ("c.md", "Guide/Run"),
    ("d.md", "Guide/Setup")], "", false⟩

/-- The observable shape of a two-level nav tree: title, url and the
children's titles and urls of every top-level item. -/
def navShape (nav : List NavItem) :
    List (String × Option String × List (String × Option String)) :=
  nav.map (fun n => (n.title, n.url, n.children.map (fun c => (c.title, c.url))))

/-- C1: the claim asserts `generate_nav` returns exactly 3 top-level items on
this page list; the code returns 2 (the three `Guide/...` pages are
contiguous, so they all join the single `Guide` group). -/
theorem claim_C1_counterexample : (generate_nav cfgC1).length ≠ 3 := by decide

/-- C1 (amended): on the C1 page list `generate_nav` returns exactly 2
top-level items, `Intro` and a single synthetic group `Guide` (absent url)
holding the pages b.md, c.md and d.md in order, so b.md and d.md land in the
same group. -/
theorem claim_C1_amended :
    navShape (generate_nav cfgC1) =
      [("Intro", some "/a/", []),
       ("Guide", none,
        [("Setup", some "/b/"), ("Run", some "/c/"), ("Setup", some "/d/")])] := by
  decide

/-- The C2 fragment: the six `<ul>`-list lines preceded and followed by two
wrapper lines, exactly as the claim specifies. -/
def fragC2 : String :=
  "w1\nw2\n<ul>\n<li><a href=\"#a\">A</a><ul>\n<li><a href=\"#a-1\">A1</a></li>\n</ul>\n</li>\n</ul>\nw3\nw4"

/-- C2: on the claim's fragment `generate_toc` does not return normally: the
six list lines contain two `</ul>` closers but only one anchor line ending in
`<ul>` was pushed, so the second `parents.pop()` hits an empty stack and
raises `IndexError` (modelled by `none`). -/
theorem claim_C2_counterexample : generate_toc fragC2 = none := rfl

/-- The C2 fragment arranged as the markdown converter actually emits it:
the outer `<ul>`/`</ul>` pair belongs to the discarded wrapper lines
(`<div class="toc">`,`<ul>` before, `</ul>`,`</div>` after). -/
def fragC2' : String :=
  "<div class=\"toc\">\n<ul>\n<li><a href=\"#a\">A</a><ul>\n<li><a href=\"#a-1\">A1</a></li>\n</ul>\n</li>\n</ul>\n</div>"

/-- C2 (amended): with the fragment's outer `<ul>`/`</ul>` lines counted
among the two discarded wrapper lines on each side, `generate_toc` returns
normally: exactly one top-level item `A` (href `#a`, active) with exactly one
child `A1` (href `#a-1`). -/
theorem claim_C2_amended :
    generate_toc fragC2' =
      some [NavItem.mk "A" (some "#a")
              [NavItem.mk "A1" (some "#a-1") [] false] true] := rfl

/-- Number of active top-level items of a two-level nav tree. -/
def top_active_count (nav : List NavItem) : Nat :=
  (nav.filter (fun n => n.active)).length

/-- Number of active children of a two-level nav tree. -/
def child_active_count (nav : List NavItem) : Nat :=
  (nav.map (fun n => (n.children.filter (fun c => c.active)).length)).sum

/-- Number of active items of a two-level nav tree, top-level items and
children both counted. -/
def total_active_count (nav : List NavItem) : Nat :=
  top_active_count nav + child_active_count nav

/-- A one-page configuration whose single page sits in a group. -/
def cfgC3 : Config := ⟨[("a.md", "G/A")], "", false⟩

/-- C3: the claim asserts at most one item of the whole tree is active after
`set_nav_active`; on `cfgC3` the child `A` matches the page URL and the code
then also forces its parent group active, so two items are active. -/
theorem claim_C3_counterexample :
    ¬ total_active_count
        (set_nav_active "a.md" cfgC3 (generate_nav cfgC3)).1 ≤ 1 := by decide

/-! ## Previous/next URLs (claims C5, C6) -/

lemma pyIndex_eq_none_iff (x : String) (l : List String) :
    pyIndex x l = none ↔ x ∉ l := by
  induction l with
  | nil => simp [pyIndex]
  | cons y t ih =>
    by_cases hyx : y = x
    · subst hyx
      simp [pyIndex]
    · simp only [pyIndex, if_neg hyx, List.mem_cons, Option.map_eq_none']
      rw [ih]
      constructor
      · intro hnot hmem
        rcases hmem with h | h
        · exact hyx h.symm
        · exact hnot h
      · intro hmem h
        exact hmem (Or.inr h)

lemma pyIndex_get_of_nodup (l : List String) (i : Nat) (hi : i < l.length)
    (hnd : l.Nodup) : pyIndex (l.get ⟨i, hi⟩) l = some i := by
  induction l generalizing i with
  | nil => exact absurd hi (by simp)
  | cons y t ih =>
    rcases List.nodup_cons.mp hnd with ⟨hy, hnd'⟩
    match i with
    | 0 => simp [pyIndex]
    | i + 1 =>
      have hi' : i < t.length := by simpa using hi
      have hget : (y :: t).get ⟨i + 1, hi⟩ = t.get ⟨i, hi'⟩ := rfl
      have hne : y ≠ t.get ⟨i, hi'⟩ := by
        intro h
        exact hy (h ▸ List.get_mem t i hi')
      rw [hget]
      simp only [pyIndex, if_neg hne, ih i hi' hnd', Option.map_some']

/-- C5: for a configuration with pairwise-distinct page paths, the previous
URL is absent exactly for the first page and the next URL exactly for the
last, and otherwise each is `path_to_url` of the adjacent entry in the
declared order of `config.pages`. -/
theorem claim_C5 (config : Config) (i : Nat)
    (hnd : (config.pages.map Prod.fst).Nodup)
    (hi : i < config.pages.length) :
    ∃ pn, path_to_previous_and_next_urls
        ((config.pages.get ⟨i, hi⟩).1) config = some pn ∧
      (pn.1 = none ↔ i = 0) ∧
      (pn.2 = none ↔ i + 1 = config.pages.length) ∧
      pn.1 = (if i = 0 then none
        else some (path_to_url ((config.pages.map Prod.fst).getD (i - 1) "") config)) ∧
      pn.2 = (if i + 1 = config.pages.length then none
        else some (path_to_url ((config.pages.map Prod.fst).getD (i + 1) "") config)) := by
  have hil : i < (config.pages.map Prod.fst).length := by simpa using hi
  have hget : (config.pages.map Prod.fst).get ⟨i, hil⟩ =
      (config.pages.get ⟨i, hi⟩).1 := by
    simp [List.get_map]
  have hidx : pyIndex ((config.pages.get ⟨i, hi⟩).1)
      (config.pages.map Prod.fst) = some i := by
    rw [← hget]
    exact pyIndex_get_of_nodup _ i hil hnd
  have hP : path_to_previous_and_next_urls ((config.pages.get ⟨i, hi⟩).1) config =
      some ((if i = 0 then none
        else some (path_to_url ((config.pages.map Prod.fst).getD (i - 1) "") config)),
       (if i + 1 ≥ (config.pages.map Prod.fst).length then none
        else some (path_to_url ((config.pages.map Prod.fst).getD (i + 1) "") config))) := by
    simp only [path_to_previous_and_next_urls]
    rw [hidx]
    rfl
  refine ⟨_, hP, ?_, ?_, ?_, ?_⟩
  · by_cases h0 : i = 0 <;> simp [h0]
  · by_cases hlast : i + 1 = config.pages.length
    · have hge : i + 1 ≥ (config.pages.map Prod.fst).length := by
        simp only [List.length_map]
        omega
      simp [hge, hlast]
    · have hlt : ¬ i + 1 ≥ (config.pages.map Prod.fst).length := by
        simp only [List.length_map]
        omega
      simp only [hlt, if_false]
      simp [hlast]
  · rfl
  · by_cases hlast : i + 1 = config.pages.length
    · have hge : i + 1 ≥ (config.pages.map Prod.fst).length := by
        simp only [List.length_map]
        omega
      simp [hge, hlast]
    · have hlt : ¬ i + 1 ≥ (config.pages.map Prod.fst).length := by
        simp only [List.length_map]
        omega
      simp only [hlt, if_false, if_neg hlast]

/-- C5 witness: the middle page `b.md` of the C1 configuration. -/
theorem claim_C5_witness :
    ∃ pn, path_to_previous_and_next_urls
        ((cfgC1.pages.get ⟨1, by decide⟩).1) cfgC1 = some pn ∧
      (pn.1 = none ↔ 1 = 0) ∧
      (pn.2 = none ↔ 1 + 1 = cfgC1.pages.length) ∧
      pn.1 = (if 1 = 0 then none
        else some (path_to_url ((cfgC1.pages.map Prod.fst).getD 0 "") cfgC1)) ∧
      pn.2 = (if 1 + 1 = cfgC1.pages.length then none
        else some (path_to_url ((cfgC1.pages.map Prod.fst).getD 2 "") cfgC1)) :=
  claim_C5 cfgC1 1 (by decide) (by decide)

/-- C6: `path_to_previous_and_next_urls` fails (the modelled `ValueError`
from `paths.index`) exactly when `path` does not occur, by exact string
match, among the declared page paths; otherwise it returns normally. -/
theorem claim_C6 (path : String) (config : Config) :
    (path_to_previous_and_next_urls path config = none ↔
      path ∉ config.pages.map Prod.fst) ∧
    (path ∈ config.pages.map Prod.fst →
      ∃ pn, path_to_previous_and_next_urls path config = some pn) := by
  constructor
  · rw [← pyIndex_eq_none_iff path (config.pages.map Prod.fst)]
    constructor
    · intro h
      by_contra hne
      rcases Option.ne_none_iff_exists'.mp hne with ⟨idx, hidx⟩
      simp [path_to_previous_and_next_urls, hidx] at h
    · intro h
      simp [path_to_previous_and_next_urls, h]
  · intro hmem
    have : pyIndex path (config.pages.map Prod.fst) ≠ none := by
      rw [Ne, pyIndex_eq_none_iff]
      simpa using hmem
    rcases Option.ne_none_iff_exists'.mp this with ⟨idx, hidx⟩
    refine ⟨((if idx = 0 then none
      else some (path_to_url ((config.pages.map Prod.fst).getD (idx - 1) "") config)),
     (if idx + 1 ≥ (config.pages.map Prod.fst).length then none
      else some (path_to_url ((config.pages.map Prod.fst).getD (idx + 1) "") config))), ?_⟩
    simp only [path_to_previous_and_next_urls]
    rw [hidx]
    rfl

/-- C6 witness: `b.md` occurs in the C1 configuration, so the call returns
normally. -/
theorem claim_C6_witness :
    ∃ pn, path_to_previous_and_next_urls "b.md" cfgC1 = some pn :=
  (claim_C6 "b.md" cfgC1).2 (by decide)

/-! ## Active marking (claims C4, C3) -/

lemma NavItem.title_mk (t : String) (u : Option String) (cs : List NavItem)
    (a : Bool) : (NavItem.mk t u cs a).title = t := rfl

lemma NavItem.url_mk (t : String) (u : Option String) (cs : List NavItem)
    (a : Bool) : (NavItem.mk t u cs a).url = u := rfl

lemma NavItem.children_mk (t : String) (u : Option String) (cs : List NavItem)
    (a : Bool) : (NavItem.mk t u cs a).children = cs := rfl

lemma NavItem.active_mk (t : String) (u : Option String) (cs : List NavItem)
    (a : Bool) : (NavItem.mk t u cs a).active = a := rfl

/-- C4: after `set_nav_active`, whatever `active` flags the input tree
carried, a child is active iff its url is the resolved page URL, and a
top-level item is active iff its own url is that URL or some child's url is;
hence an item with absent url is only active through a matching child, and no
previous flag survives on the two levels the function touches. -/
theorem claim_C4 (path : String) (config : Config) (nav : List NavItem) :
    ∀ n' ∈ (set_nav_active path config nav).1,
      ((n'.active = true) ↔
        (n'.url = some (path_to_url path config) ∨
         ∃ c ∈ n'.children, c.url = some (path_to_url path config))) ∧
      (∀ c ∈ n'.children, (c.active = true) ↔
         c.url = some (path_to_url path config)) := by
  intro n' hn'
  simp only [set_nav_active, List.mem_map] at hn'
  obtain ⟨n, hn, rfl⟩ := hn'
  constructor
  · simp only [set_nav_item, NavItem.active_mk, NavItem.url_mk,
      NavItem.children_mk, Bool.or_eq_true, decide_eq_true_eq,
      List.any_eq_true, List.mem_map]
    constructor
    · rintro (h | ⟨c, hc, hcu⟩)
      · exact Or.inl h
      · exact Or.inr ⟨mark_child (path_to_url path config) c,
          ⟨c, hc, rfl⟩, by simpa [mark_child, NavItem.url_mk] using hcu⟩
    · rintro (h | ⟨c', ⟨c, hc, rfl⟩, hcu⟩)
      · exact Or.inl h
      · exact Or.inr ⟨c, hc, by simpa [mark_child, NavItem.url_mk] using hcu⟩
  · intro c hc
    simp only [set_nav_item, NavItem.children_mk, List.mem_map] at hc
    obtain ⟨c0, _, rfl⟩ := hc
    simp [mark_child, NavItem.active_mk, NavItem.url_mk]

/-- A stale nav tree: every `active` flag is `true` from a previous call. -/
def navC4 : List NavItem :=
  [NavItem.mk "T" (some "/a/") [] true,
   NavItem.mk "G" none [NavItem.mk "S" (some "/b/") [] true] true]

/-- C4 witness: the first item of `navC4` after `set_nav_active "a.md"`. -/
theorem claim_C4_witness :
    (NavItem.mk "T" (some "/a/") [] true) ∈
      (set_nav_active "a.md" ⟨[], "", false⟩ navC4).1 ∧
    (((NavItem.mk "T" (some "/a/") [] true).active = true) ↔
      ((NavItem.mk "T" (some "/a/") [] true).url =
          some (path_to_url "a.md" ⟨[], "", false⟩) ∨
       ∃ c ∈ (NavItem.mk "T" (some "/a/") [] true).children,
         c.url = some (path_to_url "a.md" ⟨[], "", false⟩))) :=
  ⟨List.Mem.head _,
   (claim_C4 "a.md" ⟨[], "", false⟩ navC4 _ (List.Mem.head _)).1⟩

/-! ## Clean-URL mode (claim C7) -/

lemma strExt {a b : String} (h : a.data = b.data) : a = b :=
  congrArg String.mk h

lemma strCat_data (a b : String) : (strCat a b).data = a.data ++ b.data := rfl

lemma pyEndsWith_iff (s t : String) :
    pyEndsWith s t = true ↔ ∃ r, s.data = r ++ t.data := by
  unfold pyEndsWith
  rw [isPrefixOf_eq_true_iff]
  constructor
  · rintro ⟨r, hr⟩
    refine ⟨r.reverse, ?_⟩
    have h2 := congrArg List.reverse hr
    simpa [List.reverse_append] using h2.symm
  · rintro ⟨r, hr⟩
    refine ⟨r.reverse, ?_⟩
    rw [hr]
    simp [List.reverse_append]

lemma cat_ne_index (b x : String) : strCat (strCat b "/") x ≠ "index" := by
  intro h
  have h1 : '/' ∈ ("/" : String).data := by decide
  have h2 : '/' ∈ (strCat (strCat b "/") x).data := by
    rw [strCat_data, strCat_data]
    exact List.mem_append_left _ (List.mem_append_right _ h1)
  rw [h] at h2
  exact absurd h2 (by decide)

lemma cat_beq_index_false (b x : String) :
    (strCat (strCat b "/") x == "index") = false := by
  rw [beq_eq_false_iff_ne]
  exact cat_ne_index b x

lemma pyRstrip_slash_index (r : List Char) :
    pyRstrip ⟨r ++ ['/', 'i', 'n', 'd', 'e', 'x']⟩ ['i', 'n', 'd', 'e', 'x'] =
      ⟨r ++ ['/']⟩ := by
  apply strExt
  show ((r ++ ['/', 'i', 'n', 'd', 'e', 'x']).reverse.dropWhile
      (fun c => (['i', 'n', 'd', 'e', 'x'].contains c))).reverse = r ++ ['/']
  have h2 : (r ++ ['/', 'i', 'n', 'd', 'e', 'x']).reverse =
      'x' :: 'e' :: 'd' :: 'n' :: 'i' :: '/' :: r.reverse := by
    simp [List.reverse_append]
  rw [h2]
  have h3 : List.dropWhile (fun c => (['i', 'n', 'd', 'e', 'x'].contains c))
      ('x' :: 'e' :: 'd' :: 'n' :: 'i' :: '/' :: r.reverse) = '/' :: r.reverse := rfl
  rw [h3]
  simp

lemma containsSeq_true_iff (needle hay : List Char) :
    containsSeq needle hay = true ↔
      ∃ n, n ≤ hay.length ∧ ∃ r, hay.drop n = needle ++ r := by
  unfold containsSeq
  rw [List.any_eq_true]
  constructor
  · rintro ⟨n, hn, hp⟩
    rw [List.mem_range] at hn
    rcases (isPrefixOf_eq_true_iff _ _).mp hp with ⟨r, hr⟩
    exact ⟨n, by omega, r, hr.symm⟩
  · rintro ⟨n, hn, r, hr⟩
    refine ⟨n, List.mem_range.mpr (by omega), ?_⟩
    rw [isPrefixOf_eq_true_iff]
    exact ⟨r, hr.symm⟩

lemma containsSeq_append_singleton {needle : List Char} {c : Char}
    (hne : needle ≠ []) (hc : c ∉ needle) (r : List Char)
    (h : containsSeq needle (r ++ [c]) = true) : containsSeq needle r = true := by
  rcases (containsSeq_true_iff _ _).mp h with ⟨n, hn, s, hs⟩
  simp only [List.length_append, List.length_cons, List.length_nil] at hn
  by_cases hnr : n ≤ r.length
  · have hdrop : (r ++ [c]).drop n = r.drop n ++ [c] := by
      rw [List.drop_append_eq_append_drop]
      have h0 : n - r.length = 0 := by omega
      rw [h0]
      rfl
    rw [hdrop] at hs
    have hlen := congrArg List.length hs
    simp only [List.length_append, List.length_cons, List.length_drop,
      List.length_nil] at hlen
    have hsne : s ≠ [] := by
      intro hnil
      subst hnil
      rw [List.append_nil] at hs
      exact hc (hs ▸ List.mem_append_right _ (by simp))
    have hslen : 1 ≤ s.length := by
      cases s with
      | nil => exact absurd rfl hsne
      | cons a t => simp
    have hnl : needle.length ≤ (r.drop n).length := by
      simp only [List.length_drop]
      omega
    have htake := congrArg (List.take needle.length) hs
    rw [List.take_append_eq_append_take, List.take_append_eq_append_take] at htake
    have e1 : needle.length - (r.drop n).length = 0 := by
      simp only [List.length_drop] at hnl ⊢
      omega
    have e2 : needle.length - needle.length = 0 := by omega
    rw [e1, e2, List.take_length] at htake
    simp only [List.take_zero, List.append_nil] at htake
    apply (containsSeq_true_iff _ _).mpr
    refine ⟨n, hnr, (r.drop n).drop needle.length, ?_⟩
    conv_lhs => rw [← List.take_append_drop needle.length (r.drop n)]
    rw [htake]
  · have hdrop : (r ++ [c]).drop n = [] := by
      apply List.drop_eq_nil_of_le
      simp only [List.length_append, List.length_cons, List.length_nil]
      omega
    rw [hdrop] at hs
    rcases List.append_eq_nil.mp hs.symm with ⟨hne2, _⟩
    exact absurd hne2 hne

/-- C7: in clean-URL mode `path_to_url "index.md"` is exactly the base URL
followed by a trailing slash (and so has no `index` segment beyond any inside
the base URL itself), `path_to_url "guide/install.md"` ends in
`/guide/install/`, and every resolved URL ends in `/`. -/
theorem claim_C7 (config : Config) (h : config.local_files = false) :
    path_to_url "index.md" config = strCat config.base_url "/" ∧
    (containsSeq ("index".data) config.base_url.data = false →
      containsSeq ("index".data) (path_to_url "index.md" config).data = false) ∧
    pyEndsWith (path_to_url "guide/install.md" config) "/guide/install/" = true ∧
    (∀ p : String, pyEndsWith (path_to_url p config) "/" = true) := by
  have hstem1 : pyReplacePathsep (pySplitextStem "index.md") = "index" := rfl
  have hu1 : strCat (strCat config.base_url "/") "index" =
      (⟨config.base_url.data ++ ['/', 'i', 'n', 'd', 'e', 'x']⟩ : String) := by
    apply strExt
    simp [strCat_data]
  have hend1 : pyEndsWith (strCat (strCat config.base_url "/") "index")
      "/index" = true := by
    rw [pyEndsWith_iff]
    exact ⟨config.base_url.data, by simp [strCat_data]⟩
  have part1 : path_to_url "index.md" config = strCat config.base_url "/" := by
    simp only [path_to_url, h, Bool.false_eq_true, if_false, hstem1]
    rw [cat_beq_index_false config.base_url "index", hend1]
    simp only [Bool.false_or, if_true]
    rw [hu1, pyRstrip_slash_index]
    apply strExt
    simp [strCat_data]
  refine ⟨part1, ?_, ?_, ?_⟩
  · intro hbase
    rw [part1]
    have hcatd : (strCat config.base_url "/").data =
        config.base_url.data ++ ['/'] := rfl
    rw [hcatd]
    by_contra hcon
    simp only [Bool.not_eq_false] at hcon
    have := containsSeq_append_singleton (by decide) (by decide)
      config.base_url.data hcon
    rw [hbase] at this
    exact absurd this (by simp)
  · have hstem3 : pyReplacePathsep (pySplitextStem "guide/install.md") =
        "guide/install" := rfl
    have hrev3 : (strCat (strCat config.base_url "/") "guide/install").data.reverse =
        'l' :: 'l' :: 'a' :: 't' :: 's' :: 'n' :: 'i' :: '/' :: 'e' :: 'd' ::
        'i' :: 'u' :: 'g' :: '/' :: config.base_url.data.reverse := by
      rw [strCat_data, strCat_data]
      have e1 : ("guide/install" : String).data =
          ['g', 'u', 'i', 'd', 'e', '/', 'i', 'n', 's', 't', 'a', 'l', 'l'] := rfl
      have e2 : ("/" : String).data = ['/'] := rfl
      rw [e1, e2]
      simp [List.reverse_append]
    have hend3 : pyEndsWith (strCat (strCat config.base_url "/") "guide/install")
        "/index" = false := by
      unfold pyEndsWith
      rw [hrev3]
      rfl
    simp only [path_to_url, h, Bool.false_eq_true, if_false, hstem3]
    rw [cat_beq_index_false config.base_url "guide/install", hend3]
    simp only [Bool.false_or, Bool.or_false, Bool.false_eq_true, if_false]
    rw [pyEndsWith_iff]
    refine ⟨config.base_url.data, ?_⟩
    rw [strCat_data, strCat_data, strCat_data]
    have e1 : ("guide/install" : String).data =
        ['g', 'u', 'i', 'd', 'e', '/', 'i', 'n', 's', 't', 'a', 'l', 'l'] := rfl
    have e2 : ("/" : String).data = ['/'] := rfl
    have e3 : ("/guide/install/" : String).data =
        ['/', 'g', 'u', 'i', 'd', 'e', '/', 'i', 'n', 's', 't', 'a', 'l', 'l', '/'] := rfl
    rw [e1, e2, e3]
    simp
  · intro p
    simp only [path_to_url, h, Bool.false_eq_true, if_false]
    rw [cat_beq_index_false config.base_url (pyReplacePathsep (pySplitextStem p))]
    simp only [Bool.false_or]
    by_cases hb : pyEndsWith (strCat (strCat config.base_url "/")
        (pyReplacePathsep (pySplitextStem p))) "/index" = true
    · rw [hb]
      simp only [if_true]
      rcases (pyEndsWith_iff _ _).mp hb with ⟨r, hr⟩
      have hequrl : strCat (strCat config.base_url "/")
          (pyReplacePathsep (pySplitextStem p)) =
          (⟨r ++ ['/', 'i', 'n', 'd', 'e', 'x']⟩ : String) := by
        apply strExt
        rw [hr]
      rw [hequrl, pyRstrip_slash_index, pyEndsWith_iff]
      exact ⟨r, rfl⟩
    · simp only [Bool.not_eq_true] at hb
      rw [hb]
      simp only [Bool.false_eq_true, if_false]
      rw [pyEndsWith_iff]
      exact ⟨(strCat (strCat config.base_url "/")
        (pyReplacePathsep (pySplitextStem p))).data, rfl⟩

/-- C7 witness: the base URL `http://h`. -/
theorem claim_C7_witness :
    path_to_url "index.md" ⟨[], "http://h", false⟩ =
      strCat ("http://h" : String) "/" ∧
    (containsSeq ("index".data) ("http://h" : String).data = false →
      containsSeq ("index".data)
        (path_to_url "index.md" ⟨[], "http://h", false⟩).data = false) ∧
    pyEndsWith (path_to_url "guide/install.md" ⟨[], "http://h", false⟩)
      "/guide/install/" = true ∧
    pyEndsWith (path_to_url "deep/dir/page.md" ⟨[], "http://h", false⟩)
      "/" = true :=
  ⟨(claim_C7 ⟨[], "http://h", false⟩ rfl).1,
   (claim_C7 ⟨[], "http://h", false⟩ rfl).2.1,
   (claim_C7 ⟨[], "http://h", false⟩ rfl).2.2.1,
   (claim_C7 ⟨[], "http://h", false⟩ rfl).2.2.2 "deep/dir/page.md"⟩

/-! ## Grouping joins the preceding top-level item by title (claim C9) -/

lemma takeWhile_append_all {p : Char → Bool} (a l : List Char)
    (ha : ∀ x ∈ a, p x = true) :
    (a ++ l).takeWhile p = a ++ l.takeWhile p := by
  induction a with
  | nil => simp
  | cons x t ih =>
    have hx : p x = true := ha x (by simp)
    simp only [List.cons_append, List.takeWhile_cons, hx, if_true]
    rw [ih (fun y hy => ha y (by simp [hy]))]

lemma pyPartitionSlash_no_slash (s : String) (hs : '/' ∉ s.data) :
    pyPartitionSlash s = (s, "") := by
  have hall : s.data.takeWhile (fun c => c ≠ '/') = s.data := by
    rw [List.takeWhile_eq_self_iff]
    intro x hx
    simp only [ne_eq, decide_not, Bool.not_eq_true', decide_eq_false_iff_not]
    intro heq
    exact hs (heq ▸ hx)
  simp only [pyPartitionSlash, hall, if_pos rfl]
  simp

lemma pyPartitionSlash_slash (tX tY : String) (h1 : '/' ∉ tX.data) :
    pyPartitionSlash (strCat (strCat tX "/") tY) = (tX, tY) := by
  have hdata : (strCat (strCat tX "/") tY).data = tX.data ++ '/' :: tY.data := by
    rw [strCat_data, strCat_data]
    simp
  have htw : (tX.data ++ '/' :: tY.data).takeWhile (fun c => c ≠ '/') =
      tX.data := by
    rw [takeWhile_append_all]
    · simp
    · intro x hx
      simp only [ne_eq, decide_not, Bool.not_eq_true', decide_eq_false_iff_not]
      intro heq
      exact h1 (heq ▸ hx)
  have hlen : ¬ (tX.data.length = (tX.data ++ '/' :: tY.data).length) := by
    simp only [List.length_append, List.length_cons]
    omega
  have hdrop : (tX.data ++ '/' :: tY.data).drop (tX.data.length + 1) =
      tY.data := by
    rw [List.drop_append_eq_append_drop]
    have e1 : tX.data.drop (tX.data.length + 1) = [] :=
      List.drop_eq_nil_of_le (by omega)
    have e2 : tX.data.length + 1 - tX.data.length = 1 := by omega
    rw [e1, e2]
    simp
  simp only [pyPartitionSlash, hdata, htw, hlen, if_false]
  rw [hdrop]

/-- C9: when a page with a plain (slash-free) title is immediately followed
by a page titled with the same first segment, `generate_nav` does not open a
synthetic group: it appends the second page as a child of the preceding
top-level item, which keeps its own (non-absent) url. Grouping compares only
the title of the last appended top-level item, not whether it is a group. -/
theorem claim_C9 (b : String) (lf : Bool) (p1 p2 tX tY : String)
    (h1 : '/' ∉ tX.data) (h2 : pyStrip tY ≠ "") :
    generate_nav ⟨[(p1, tX), (p2, strCat (strCat tX "/") tY)], b, lf⟩ =
      [NavItem.mk (pyStrip tX)
        (some (path_to_url p1 ⟨[(p1, tX), (p2, strCat (strCat tX "/") tY)], b, lf⟩))
        [NavItem.mk (pyStrip tY)
          (some (path_to_url p2 ⟨[(p1, tX), (p2, strCat (strCat tX "/") tY)], b, lf⟩))
          [] false] false] := by
  have hpart1 : pyPartitionSlash tX = (tX, "") := pyPartitionSlash_no_slash tX h1
  have hpart2 : pyPartitionSlash (strCat (strCat tX "/") tY) = (tX, tY) :=
    pyPartitionSlash_slash tX tY h1
  have hempty : pyStrip "" = "" := rfl
  simp only [generate_nav, List.foldl, generate_nav_step, hpart1, hpart2,
    hempty, if_pos rfl, if_neg h2, NavItem.title_mk, NavItem.url_mk,
    NavItem.children_mk, NavItem.active_mk, ne_eq, not_true_eq_false,
    Bool.false_eq_true, if_false, List.nil_append, List.reverse_cons,
    List.reverse_nil]
  simp [NavItem.title_mk, NavItem.url_mk, NavItem.children_mk, NavItem.active_mk]

/-- C9 witness: the two-page list `[("a.md","X"), ("b.md","X/Y")]`. -/
theorem claim_C9_witness :
    generate_nav ⟨[("a.md", "X"), ("b.md", strCat (strCat "X" "/") "Y")], "", false⟩ =
      [NavItem.mk (pyStrip "X")
        (some (path_to_url "a.md"
          ⟨[("a.md", "X"), ("b.md", strCat (strCat "X" "/") "Y")], "", false⟩))
        [NavItem.mk (pyStrip "Y")
          (some (path_to_url "b.md"
            ⟨[("a.md", "X"), ("b.md", strCat (strCat "X" "/") "Y")], "", false⟩))
          [] false] false] :=
  claim_C9 "" false "a.md" "b.md" "X" "Y" (by decide) (by decide)

/-! ## The URLs carried by a generated nav tree (claims C10, C3) -/

/-- The urls of one top-level item and of its direct children, in traversal
order. -/
def seg_urls (n : NavItem) : List (Option String) :=
  n.url :: n.children.map NavItem.url

/-- The urls of a two-level nav tree in traversal order. -/
def nav_urls (nav : List NavItem) : List (Option String) :=
  nav.bind seg_urls

lemma nav_urls_append (a b : List NavItem) :
    nav_urls (a ++ b) = nav_urls a ++ nav_urls b := by
  simp [nav_urls]

lemma nav_urls_step (config : Config) (acc : List NavItem) (p : String × String) :
    (nav_urls (generate_nav_step config acc p).reverse).filterMap id =
      (nav_urls acc.reverse).filterMap id ++ [path_to_url p.1 config] := by
  simp only [generate_nav_step]
  by_cases hc : pyStrip (pyPartitionSlash p.2).2 = ""
  · rw [if_pos hc, List.reverse_cons, nav_urls_append]
    simp [nav_urls, seg_urls, NavItem.url_mk, NavItem.children_mk]
  · rw [if_neg hc]
    cases acc with
    | nil =>
      simp [nav_urls, seg_urls, NavItem.url_mk, NavItem.children_mk]
    | cons last rest =>
      dsimp only
      by_cases ht : last.title ≠ pyStrip (pyPartitionSlash p.2).1
      · rw [if_pos ht, List.reverse_cons, nav_urls_append]
        simp [nav_urls, seg_urls, NavItem.url_mk, NavItem.children_mk]
        rw [← List.cons_append, List.filterMap_append]
        simp
      · rw [if_neg ht, List.reverse_cons, List.reverse_cons, nav_urls_append,
          nav_urls_append]
        simp only [nav_urls, List.cons_bind, List.nil_bind, List.append_nil,
          seg_urls, NavItem.url_mk, NavItem.children_mk, List.map_append,
          List.map_cons, List.map_nil, List.filterMap_append]
        simp
        rw [← List.cons_append, List.filterMap_append]
        simp

lemma nav_urls_foldl (config : Config) (ps : List (String × String))
    (acc : List NavItem) :
    (nav_urls (ps.foldl (generate_nav_step config) acc).reverse).filterMap id =
      (nav_urls acc.reverse).filterMap id ++
        ps.map (fun pr => path_to_url pr.1 config) := by
  induction ps generalizing acc with
  | nil => simp
  | cons p ps ih =>
    rw [List.foldl_cons, ih, nav_urls_step]
    simp

lemma nav_urls_generate_nav (config : Config) :
    (nav_urls (generate_nav config)).filterMap id =
      config.pages.map (fun pr => path_to_url pr.1 config) := by
  have h := nav_urls_foldl config config.pages []
  simpa [generate_nav, nav_urls] using h

lemma last_active_url {url : String} {n x : NavItem}
    (h : last_active_of_item url n = some x) : x.url = some url := by
  unfold last_active_of_item at h
  split at h
  · rename_i c hc
    have hcx : x = c := by simpa using h.symm
    subst hcx
    have hcin : x ∈ (n.children.map (mark_child url)).filter
        (fun c => decide (c.url = some url)) := by
      rcases List.mem_getLast?_eq_getLast hc with ⟨hne2, heq⟩
      rw [heq]
      exact List.getLast_mem hne2
    have h2 := List.mem_filter.mp hcin
    simpa using h2.2
  · rename_i hnone
    split at h
    · rename_i hurl
      obtain rfl : set_nav_item url n = x := by simpa using h
      simpa [set_nav_item, NavItem.url_mk] using hurl
    · exact absurd h (by simp)

lemma last_active_of_hit {url : String} {n : NavItem}
    (h : some url ∈ seg_urls n) : last_active_of_item url n ≠ none := by
  unfold last_active_of_item
  split
  · simp
  · rename_i hlast
    simp only [seg_urls, List.mem_cons] at h
    rcases h with h | h
    · rw [if_pos h.symm]
      simp
    · exfalso
      rcases List.mem_map.mp h with ⟨c, hc, hcu⟩
    
      have hmem : mark_child url c ∈ (n.children.map (mark_child url)).filter
          (fun c => decide (c.url = some url)) := by
        apply List.mem_filter.mpr
        refine ⟨List.mem_map_of_mem _ hc, ?_⟩
        simp [mark_child, NavItem.url_mk, hcu]
      have hne : (n.children.map (mark_child url)).filter
          (fun c => decide (c.url = some url)) ≠ [] := by
        intro hnil
        rw [hnil] at hmem
        simp at hmem
      rw [List.getLast?_eq_none_iff] at hlast
      exact hne hlast

lemma nav_active_fold_none (url : String) (nav : List NavItem)
    (init : Option NavItem) (h : nav_active_fold url init nav = none) :
    init = none ∧ ∀ n ∈ nav, last_active_of_item url n = none := by
  induction nav generalizing init with
  | nil => exact ⟨h, by simp⟩
  | cons n rest ih =>
    rcases ih _ h with ⟨hm, hrest⟩
    have hn : last_active_of_item url n = none := by
      cases hcase : last_active_of_item url n with
      | none => rfl
      | some x =>
        rw [hcase] at hm
        simp at hm
    refine ⟨?_, ?_⟩
    · rw [hn] at hm
      exact hm
    · intro m hm2
      rcases List.mem_cons.mp hm2 with rfl | hm3
      · exact hn
      · exact hrest m hm3

lemma nav_active_fold_some_url (url : String) (nav : List NavItem)
    (init : Option NavItem)
    (hinit : ∀ x, init = some x → x.url = some url) :
    ∀ x, nav_active_fold url init nav = some x → x.url = some url := by
  induction nav generalizing init with
  | nil => exact hinit
  | cons n rest ih =>
    intro x hx
    refine ih _ ?_ x hx
    intro y hy
    cases hcase : last_active_of_item url n with
    | none =>
      rw [hcase] at hy
      exact hinit y hy
    | some z =>
      rw [hcase] at hy
      obtain rfl : z = y := by simpa using hy
      exact last_active_url hcase

/-- C10: every declared page has, somewhere in the generated nav tree, a node
carrying exactly its resolved URL, so `set_nav_active` for that page returns
a non-`None` item whose url is that URL (the renderer's `active_nav.title`
access is safe). -/
theorem claim_C10 (config : Config) (path title : String)
    (h : (path, title) ∈ config.pages) :
    ∃ x, (set_nav_active path config (generate_nav config)).2 = some x ∧
      x.url = some (path_to_url path config) := by
  have hmem : path_to_url path config ∈
      config.pages.map (fun pr => path_to_url pr.1 config) := by
    have := List.mem_map_of_mem (fun pr : String × String =>
      path_to_url pr.1 config) h
    simpa using this
  rw [← nav_urls_generate_nav config] at hmem
  have hsome : some (path_to_url path config) ∈
      nav_urls (generate_nav config) := by
    rcases List.mem_filterMap.mp hmem with ⟨b, hb, hid⟩
    have : b = some (path_to_url path config) := hid
    rwa [this] at hb
  rcases List.mem_bind.mp hsome with ⟨n, hn, hseg⟩
  have hsnd : (set_nav_active path config (generate_nav config)).2 =
      nav_active_fold (path_to_url path config) none (generate_nav config) := rfl
  have hne : (set_nav_active path config (generate_nav config)).2 ≠ none := by
    intro hnone
    rw [hsnd] at hnone
    rcases nav_active_fold_none _ _ none hnone with ⟨-, hall⟩
    exact last_active_of_hit hseg (hall n hn)
  rcases Option.ne_none_iff_exists'.mp hne with ⟨x, hx⟩
  refine ⟨x, hx, ?_⟩
  rw [hsnd] at hx
  exact nav_active_fold_some_url _ _ none (by simp) x hx

/-- C10 witness: the page `("a.md", "Intro")` of the C1 configuration. -/
theorem claim_C10_witness :
    ∃ x, (set_nav_active "a.md" cfgC1 (generate_nav cfgC1)).2 = some x ∧
      x.url = some (path_to_url "a.md" cfgC1) :=
  claim_C10 cfgC1 "a.md" "Intro" (by decide)

/-! ## At most one match per level under distinct URLs (claim C3, amended) -/

lemma count_some_filterMap (l : List (Option String)) (a : String) :
    (l.filterMap id).count a = l.count (some a) := by
  induction l with
  | nil => rfl
  | cons x t ih =>
    cases x with
    | none => simp [List.count_cons, ih]
    | some b =>
      by_cases hb : b = a
      · subst hb
        simp [List.count_cons, ih]
      · simp [List.count_cons, ih, hb, Option.some_inj]

lemma nav_urls_count (nav : List NavItem) (u : Option String) :
    (nav_urls nav).count u = (nav.map (fun n => (seg_urls n).count u)).sum := by
  induction nav with
  | nil => rfl
  | cons n rest ih =>
    have hc : nav_urls (n :: rest) = seg_urls n ++ nav_urls rest := by
      simp [nav_urls]
    rw [hc, List.count_append, ih]
    simp

lemma count_map_url (cs : List NavItem) (url : String) :
    (cs.map NavItem.url).count (some url) =
      (cs.filter (fun c => decide (c.url = some url))).length := by
  induction cs with
  | nil => rfl
  | cons c t ih =>
    by_cases h : c.url = some url
    · simp [List.count_cons, List.filter_cons, h, ih]
    · simp [List.count_cons, List.filter_cons, h, ih]

lemma top_active_count_cons (n : NavItem) (rest : List NavItem) :
    top_active_count (n :: rest) =
      (if n.active then 1 else 0) + top_active_count rest := by
  simp only [top_active_count, List.filter_cons]
  split
  · simp only [List.length_cons]
    omega
  · simp

lemma child_active_count_cons (n : NavItem) (rest : List NavItem) :
    child_active_count (n :: rest) =
      (n.children.filter (fun c => c.active)).length + child_active_count rest := by
  simp [child_active_count]

lemma seg_count_child_le (url : String) (n : NavItem) :
    ((set_nav_item url n).children.filter (fun c => c.active)).length ≤
      (seg_urls n).count (some url) := by
  have hch : (set_nav_item url n).children = n.children.map (mark_child url) := rfl
  rw [hch, List.filter_map]
  rw [List.length_map]
  have hp : ∀ c : NavItem, ((fun c => c.active) ∘ mark_child url) c =
      (fun c => decide (c.url = some url)) c := by
    intro c
    simp [mark_child, NavItem.active_mk, Function.comp]
  rw [List.filter_congr (fun c _ => hp c)]
  rw [← count_map_url]
  simp only [seg_urls, List.count_cons]
  omega

lemma seg_count_top_le (url : String) (n : NavItem) :
    (if (set_nav_item url n).active then 1 else 0) ≤
      (seg_urls n).count (some url) := by
  by_cases h : (set_nav_item url n).active = true
  · rw [if_pos h]
    have hmem : some url ∈ seg_urls n := by
      simp only [set_nav_item, NavItem.active_mk, Bool.or_eq_true,
        decide_eq_true_eq, List.any_eq_true] at h
      rcases h with h1 | ⟨c, hc, hcu⟩
      · exact h1 ▸ List.mem_cons_self _ _
      · exact List.mem_cons_of_mem _
          (hcu ▸ List.mem_map_of_mem NavItem.url hc)
    have := List.count_pos_iff_mem.mpr hmem
    omega
  · rw [if_neg h]
    omega

lemma top_active_count_le (url : String) (nav : List NavItem) :
    top_active_count (nav.map (set_nav_item url)) ≤
      (nav_urls nav).count (some url) := by
  rw [nav_urls_count]
  induction nav with
  | nil => simp [top_active_count]
  | cons n rest ih =>
    rw [List.map_cons, top_active_count_cons, List.map_cons, List.sum_cons]
    exact Nat.add_le_add (seg_count_top_le url n) ih

lemma child_active_count_le (url : String) (nav : List NavItem) :
    child_active_count (nav.map (set_nav_item url)) ≤
      (nav_urls nav).count (some url) := by
  rw [nav_urls_count]
  induction nav with
  | nil => simp [child_active_count]
  | cons n rest ih =>
    rw [List.map_cons, child_active_count_cons, List.map_cons, List.sum_cons]
    exact Nat.add_le_add (seg_count_child_le url n) ih

/-- C3 (amended): for a configuration whose pages resolve to pairwise
distinct URLs, a `set_nav_active` call leaves at most one top-level item and
at most one child active (so at most two items in the whole tree; a matching
child also forces its parent group active, which is why "at most one item in
the whole tree" fails). -/
theorem claim_C3_amended (config : Config) (path : String)
    (hnd : (config.pages.map (fun pr => path_to_url pr.1 config)).Nodup) :
    top_active_count (set_nav_active path config (generate_nav config)).1 ≤ 1 ∧
    child_active_count (set_nav_active path config (generate_nav config)).1 ≤ 1 := by
  have hrw : (set_nav_active path config (generate_nav config)).1 =
      (generate_nav config).map (set_nav_item (path_to_url path config)) := rfl
  have hcount : (nav_urls (generate_nav config)).count
      (some (path_to_url path config)) ≤ 1 := by
    rw [← count_some_filterMap, nav_urls_generate_nav]
    exact List.nodup_iff_count_le_one.mp hnd _
  constructor
  · rw [hrw]
    exact le_trans (top_active_count_le _ _) hcount
  · rw [hrw]
    exact le_trans (child_active_count_le _ _) hcount

/-- C3 (amended) witness: the C1 configuration (distinct URLs) at page
`b.md`. -/
theorem claim_C3_amended_witness :
    top_active_count (set_nav_active "b.md" cfgC1 (generate_nav cfgC1)).1 ≤ 1 ∧
    child_active_count (set_nav_active "b.md" cfgC1 (generate_nav cfgC1)).1 ≤ 1 :=
  claim_C3_amended cfgC1 "b.md" (by decide)

/-! ## The per-page link rewrite (claim C8) -/

/-- The text `a href="t"` as it occurs in converted content. -/
def link_chunk (t : String) : List Char := pat8 ++ t.data ++ ['"']

/-- Content decomposed as raw₀ ++ `a href="t₀"` ++ raw₁ ++ ... ++ tail. -/
def assemble : List (String × String) → String → List Char
  | [], tail => tail.data
  | (raw, t) :: rest, tail => raw.data ++ (link_chunk t ++ assemble rest tail)

/-- What the rewrite of `build.py` line 102 does to one href target. -/
def rewrite_target (config : Config) (t : String) : String :=
  if ['.', 'm', 'd'].isSuffixOf t.data then path_to_url t config else t

lemma sub_md_links_cons (config : Config) (c : Char) (rest : List Char) :
    sub_md_links config (c :: rest) =
      match md_link_at (c :: rest) with
      | some (v, after) => PathToURL_call config ⟨v⟩ ++ sub_md_links config after
      | none => c :: sub_md_links config rest := by
  rw [sub_md_links]
  cases hml : md_link_at (c :: rest) with
  | none => rfl
  | some vp =>
    obtain ⟨v, after⟩ := vp
    rfl

lemma md_link_at_none_of_not_pat8 {l : List Char} (h : ¬ pat8 <+: l) :
    md_link_at l = none := by
  unfold md_link_at
  rw [if_neg]
  intro hb
  exact h ((isPrefixOf_eq_true_iff _ _).mp hb)

lemma isSuffixOf_iff_exists (l₁ l₂ : List Char) :
    l₁.isSuffixOf l₂ = true ↔ ∃ r, l₂ = r ++ l₁ := by
  constructor
  · intro hb
    rcases List.isSuffixOf_iff_suffix.mp hb with ⟨r, hr⟩
    exact ⟨r, hr.symm⟩
  · rintro ⟨r, rfl⟩
    exact List.isSuffixOf_iff_suffix.mpr ⟨r, rfl⟩

lemma no_occ_of_containsSeq_false {p l : List Char} (hp : p ≠ [])
    (h : containsSeq p l = false) : ∀ n r, l.drop n ≠ p ++ r := by
  intro n r hdrop
  by_cases hn : n ≤ l.length
  · have htrue : containsSeq p l = true :=
      (containsSeq_true_iff p l).mpr ⟨n, hn, r, hdrop⟩
    rw [h] at htrue
    exact absurd htrue (by simp)
  · have hz : l.drop n = [] := List.drop_eq_nil_of_le (by omega)
    rw [hz] at hdrop
    rcases List.append_eq_nil.mp hdrop.symm with ⟨h1, -⟩
    exact hp h1

lemma pat8_border : ∀ k, k < 8 → 1 ≤ k →
    pat8 ≠ pat8.take k ++ pat8.take (8 - k) := by decide

lemma not_pat8_prefix_drop (k : Nat) (h1 : 1 ≤ k) (h2 : k ≤ 7)
    (Y : List Char) : ¬ pat8 <+: (pat8.drop k ++ Y) := by
  rintro ⟨t, ht⟩
  have hlen : (pat8.drop k).length = 8 - k := by
    simp [pat8, pat7]
  have htake := congrArg (List.take (8 - k)) ht
  rw [List.take_append_eq_append_take, List.take_append_eq_append_take] at htake
  have e1 : 8 - k - pat8.length = 0 := by
    simp [pat8, pat7]
  have e2 : 8 - k - (pat8.drop k).length = 0 := by
    rw [hlen]
    omega
  have e3 : (pat8.drop k).take (8 - k) = pat8.drop k := by
    apply List.take_of_length_le
    omega
  rw [e1, e2, e3, List.take_zero, List.take_zero, List.append_nil,
    List.append_nil] at htake
  have : pat8 = pat8.take k ++ pat8.take (8 - k) := by
    conv_lhs => rw [← List.take_append_drop k pat8]
    rw [← htake]
  exact pat8_border k (by omega) h1 this

lemma not_pat8_prefix_quotefree (u X : List Char) (hq : '"' ∉ u)
    (h7 : u ≠ pat7) : ¬ pat8 <+: (u ++ '"' :: X) := by
  rintro ⟨t, ht⟩
  rcases Nat.lt_trichotomy u.length 7 with hk | hk | hk
  · -- position u.length of the pattern would have to be the quote
    have hdrop := congrArg (List.drop u.length) ht
    rw [List.drop_append_eq_append_drop, List.drop_append_eq_append_drop] at hdrop
    have e1 : u.length - u.length = 0 := by omega
    rw [List.drop_length, e1, List.drop_zero, List.nil_append] at hdrop
    -- hdrop : pat8.drop u.length ++ t.drop ... = '"' :: X  (needs u.length ≤ 8)
    have hhead : ∀ k, k < 7 → (pat8.drop k).head? ≠ some '"' := by decide
    have hne : (pat8.drop u.length) ≠ [] := by
      intro hnil
      have := congrArg List.length hnil
      simp [pat8, pat7] at this
      omega
    cases hd : pat8.drop u.length with
    | nil => exact hne hd
    | cons d ds =>
      rw [hd] at hdrop
      have : d = '"' := by
        have := congrArg List.head? hdrop
        simpa using this
      apply hhead u.length hk
      rw [hd, this]
      rfl
  · -- u would be exactly `a href=`
    have htake := congrArg (List.take 7) ht
    rw [List.take_append_eq_append_take, List.take_append_eq_append_take] at htake
    have e1 : (7 : Nat) - pat8.length = 0 := by simp [pat8, pat7]
    have e2 : (7 : Nat) - u.length = 0 := by omega
    have e3 : u.take 7 = u := List.take_of_length_le (by omega)
    have e4 : pat8.take 7 = pat7 := by decide
    rw [e1, e2, e3, e4, List.take_zero, List.take_zero, List.append_nil,
      List.append_nil] at htake
    exact h7 htake.symm
  · -- the quote inside pat8 would land inside u
    have htake := congrArg (List.take 8) ht
    rw [List.take_append_eq_append_take, List.take_append_eq_append_take] at htake
    have e1 : (8 : Nat) - pat8.length = 0 := by simp [pat8, pat7]
    have e2 : pat8.take 8 = pat8 := List.take_of_length_le (by simp [pat8, pat7])
    have e3 : u.take 8 ++ ('"' :: X).take (8 - u.length) = u.take 8 := by
      have : (8 : Nat) - u.length = 0 := by omega
      rw [this]
      simp
    rw [e1, List.take_zero, List.append_nil, e2, e3] at htake
    have hqmem : '"' ∈ pat8 := by decide
    rw [htake] at hqmem
    exact hq (List.take_subset 8 u hqmem)

lemma not_pat8_prefix_raw_link (l' X : List Char) (hne : l' ≠ [])
    (hno : ∀ n r, l'.drop n ≠ pat7 ++ r) :
    ¬ pat8 <+: (l' ++ (pat8 ++ X)) := by
  rintro ⟨t, ht⟩
  by_cases hk : l'.length ≤ 7
  · have h1 : 1 ≤ l'.length := by
      cases l' with
      | nil => exact absurd rfl hne
      | cons a b => simp
    have hdrop := congrArg (List.drop l'.length) ht
    rw [List.drop_append_eq_append_drop, List.drop_append_eq_append_drop]
      at hdrop
    have e1 : l'.length - pat8.length = 0 := by
      rw [pat8_length]
      omega
    have e2 : l'.length - l'.length = 0 := by omega
    rw [e1, e2, List.drop_length, List.drop_zero, List.nil_append] at hdrop
    exact not_pat8_prefix_drop l'.length h1 hk t ⟨X, hdrop.symm⟩
  · have htake := congrArg (List.take 8) ht
    rw [List.take_append_eq_append_take, List.take_append_eq_append_take]
      at htake
    have e1 : (8 : Nat) - pat8.length = 0 := by
      rw [pat8_length]
    have e2 : (8 : Nat) - l'.length = 0 := by omega
    have e3 : pat8.take 8 = pat8 :=
      List.take_of_length_le (by rw [pat8_length])
    rw [e1, e2, e3, List.take_zero, List.take_zero, List.append_nil,
      List.append_nil] at htake
    apply hno 0 ('"' :: l'.drop 8)
    rw [List.drop_zero]
    conv_lhs => rw [← List.take_append_drop 8 l']
    rw [← htake]
    simp [pat8]

lemma sub_md_links_append_none (config : Config) (l m : List Char)
    (h : ∀ l', l' ≠ [] → (∃ s, s ++ l' = l) → md_link_at (l' ++ m) = none) :
    sub_md_links config (l ++ m) = l ++ sub_md_links config m := by
  induction l with
  | nil => simp
  | cons c rest ih =>
    have hthis : md_link_at ((c :: rest) ++ m) = none :=
      h (c :: rest) (by simp) ⟨[], rfl⟩
    rw [List.cons_append] at hthis ⊢
    rw [sub_md_links_cons, hthis]
    rw [ih (fun l' hne hs => by
      rcases hs with ⟨s, hs⟩
      exact h l' hne ⟨c :: s, by rw [← hs]; rfl⟩)]
    rfl

lemma sub_md_links_of_no_pat7 (config : Config) (l : List Char)
    (h : ∀ n r, l.drop n ≠ pat7 ++ r) :
    sub_md_links config l = l := by
  induction l with
  | nil => rw [sub_md_links]
  | cons c rest ih =>
    have hnone : md_link_at (c :: rest) = none := by
      apply md_link_at_none_of_not_pat8
      rintro ⟨t, ht⟩
      apply h 0 ('"' :: t)
      rw [List.drop_zero, ← ht]
      simp [pat8]
    rw [sub_md_links_cons, hnone]
    rw [ih (fun n r hd => h (n + 1) r (by simpa using hd))]

lemma takeWhile_append_cons {p : Char → Bool} (a : List Char) (b : Char)
    (m : List Char) (ha : ∀ x ∈ a, p x = true) (hb : p b = false) :
    (a ++ b :: m).takeWhile p = a := by
  rw [takeWhile_append_all a (b :: m) ha, List.takeWhile_cons, hb]
  simp

lemma md_link_at_link (t : String) (m : List Char) (hq : '"' ∉ t.data) :
    md_link_at (link_chunk t ++ m) =
      if ['.', 'm', 'd'].isSuffixOf t.data then some (t.data, m) else none := by
  have hshape : link_chunk t ++ m = pat8 ++ (t.data ++ '"' :: m) := by
    simp [link_chunk, List.append_assoc]
  rw [hshape]
  have hpre : pat8.isPrefixOf (pat8 ++ (t.data ++ '"' :: m)) = true :=
    (isPrefixOf_eq_true_iff _ _).mpr ⟨_, rfl⟩
  simp only [md_link_at, hpre, if_true]
  have hdrop8 : (pat8 ++ (t.data ++ '"' :: m)).drop 8 = t.data ++ '"' :: m := by
    rw [← pat8_length, List.drop_left]
  rw [hdrop8]
  have htw : (t.data ++ '"' :: m).takeWhile (fun c => c != '"') = t.data := by
    apply takeWhile_append_cons
    · intro x hx
      simp only [bne_iff_ne, ne_eq, decide_eq_true_eq]
      intro heq
      exact hq (heq ▸ hx)
    · decide
  rw [htw, List.drop_left]
  rfl

lemma sub_md_links_at_link_md (config : Config) (t : String) (A : List Char)
    (hq : '"' ∉ t.data) (hmd : ['.', 'm', 'd'].isSuffixOf t.data = true) :
    sub_md_links config (link_chunk t ++ A) =
      PathToURL_call config t ++ sub_md_links config A := by
  have hml : md_link_at (link_chunk t ++ A) = some (t.data, A) := by
    rw [md_link_at_link t A hq, hmd]
    simp
  cases hL : link_chunk t ++ A with
  | nil =>
    exfalso
    have := congrArg List.length hL
    simp [link_chunk, pat8_length] at this
  | cons c rest =>
    rw [hL] at hml
    rw [sub_md_links_cons, hml]

lemma sub_md_links_at_link_nonmd (config : Config) (t : String) (A : List Char)
    (hq : '"' ∉ t.data) (ht7 : containsSeq pat7 t.data = false)
    (hmd : ['.', 'm', 'd'].isSuffixOf t.data = false) :
    sub_md_links config (link_chunk t ++ A) =
      link_chunk t ++ sub_md_links config A := by
  apply sub_md_links_append_none
  intro l' hne hs
  rcases hs with ⟨s, hs⟩
  have hl' : l' = (link_chunk t).drop s.length := by
    rw [← hs, List.drop_append_eq_append_drop]
    have h1 : s.drop s.length = [] := List.drop_eq_nil_of_le (by omega)
    have h2 : s.length - s.length = 0 := by omega
    rw [h1, h2, List.drop_zero, List.nil_append]
  have hlen : (link_chunk t).length = t.data.length + 9 := by
    simp only [link_chunk, List.length_append, List.length_cons,
      List.length_nil, pat8_length]
    omega
  have hkb : s.length < (link_chunk t).length := by
    by_contra hge
    apply hne
    rw [hl']
    exact List.drop_eq_nil_of_le (by omega)
  rcases Nat.lt_or_ge s.length 1 with hk0 | hk1
  · have hz : s.length = 0 := by omega
    rw [hz, List.drop_zero] at hl'
    subst hl'
    rw [md_link_at_link t A hq, hmd]
    simp
  · rcases Nat.lt_or_ge s.length 8 with hk7 | hk8
    · apply md_link_at_none_of_not_pat8
      have hdk : (link_chunk t).drop s.length =
          pat8.drop s.length ++ (t.data ++ ['"']) := by
        simp only [link_chunk]
        rw [List.append_assoc, List.drop_append_eq_append_drop]
        have h0 : s.length - pat8.length = 0 := by
          rw [pat8_length]
          omega
        rw [h0, List.drop_zero]
      have hshape : l' ++ A = pat8.drop s.length ++ (t.data ++ '"' :: A) := by
        rw [hl', hdk, List.append_assoc]
        simp
      rw [hshape]
      exact not_pat8_prefix_drop s.length hk1 (by omega) _
    · apply md_link_at_none_of_not_pat8
      have hdk : (link_chunk t).drop s.length =
          t.data.drop (s.length - 8) ++ ['"'] := by
        simp only [link_chunk]
        rw [List.append_assoc, List.drop_append_eq_append_drop]
        have h8 : pat8.drop s.length = [] :=
          List.drop_eq_nil_of_le (by rw [pat8_length]; omega)
        rw [h8, List.nil_append, pat8_length,
          List.drop_append_eq_append_drop]
        have h9 : s.length - 8 - t.data.length = 0 := by omega
        rw [h9, List.drop_zero]
      have hshape : l' ++ A = t.data.drop (s.length - 8) ++ '"' :: A := by
        rw [hl', hdk, List.append_assoc]
        simp
      rw [hshape]
      apply not_pat8_prefix_quotefree
      · intro hmem
        exact hq (List.drop_subset _ _ hmem)
      · intro heq
        exact (no_occ_of_containsSeq_false (by decide) ht7) (s.length - 8) []
          (by rw [heq]; simp)

/-- C8: the page-render rewrite replaces every `a href="T"` occurrence whose
target `T` ends in `.md` by `a href="U"` with `U = path_to_url T config`,
and leaves every other href (and all surrounding text) byte-for-byte
unchanged. Content is presented in its canonical decomposition into raw
segments and href occurrences; raw segments and targets contain no further
`a href=` text and targets contain no quote, so the decomposition lists
exactly the href occurrences of the content. -/
theorem claim_C8 (config : Config) (doc : List (String × String)) (tail : String)
    (hraw : ∀ pr ∈ doc, containsSeq pat7 pr.1.data = false)
    (htail : containsSeq pat7 tail.data = false)
    (htgt : ∀ pr ∈ doc, '"' ∉ pr.2.data ∧ containsSeq pat7 pr.2.data = false) :
    sub_md_links config (assemble doc tail) =
      assemble (doc.map (fun pr => (pr.1, rewrite_target config pr.2))) tail := by
  induction doc with
  | nil =>
    simp only [assemble, List.map_nil]
    exact sub_md_links_of_no_pat7 config tail.data
      (no_occ_of_containsSeq_false (by decide) htail)
  | cons pr rest ih =>
    obtain ⟨raw, t⟩ := pr
    have hraw1 : containsSeq pat7 raw.data = false := hraw (raw, t) (by simp)
    obtain ⟨hq, ht7⟩ := htgt (raw, t) (by simp)
    have hrawno := no_occ_of_containsSeq_false (p := pat7) (by decide) hraw1
    have ih2 := ih (fun q hq2 => hraw q (by simp [hq2]))
      (fun q hq2 => htgt q (by simp [hq2]))
    simp only [assemble, List.map_cons]
    rw [sub_md_links_append_none config raw.data
      (link_chunk t ++ assemble rest tail) ?cond]
    case cond =>
      intro l' hne hs
      rcases hs with ⟨s, hs⟩
      apply md_link_at_none_of_not_pat8
      have hshape : l' ++ (link_chunk t ++ assemble rest tail) =
          l' ++ (pat8 ++ (t.data ++ '"' :: assemble rest tail)) := by
        simp [link_chunk, List.append_assoc]
      rw [hshape]
      apply not_pat8_prefix_raw_link l' _ hne
      intro n r hd
      have hdn : raw.data.drop (s.length + n) = l'.drop n := by
        rw [← hs, List.drop_append_eq_append_drop]
        have h1 : s.drop (s.length + n) = [] :=
          List.drop_eq_nil_of_le (by omega)
        have h2 : s.length + n - s.length = n := by omega
        rw [h1, h2, List.nil_append]
      exact hrawno (s.length + n) r (by rw [hdn]; exact hd)
    by_cases hmd : ['.', 'm', 'd'].isSuffixOf t.data = true
    · rw [sub_md_links_at_link_md config t _ hq hmd, ih2]
      simp only [rewrite_target, hmd, if_true, PathToURL_call, link_chunk]
    · simp only [Bool.not_eq_true] at hmd
      rw [sub_md_links_at_link_nonmd config t _ hq ht7 hmd, ih2]
      simp only [rewrite_target, hmd, Bool.false_eq_true, if_false]

/-- C8 witness: the spec's example, one internal `.md` link and one external
link inside surrounding markup. -/
theorem claim_C8_witness :
    (containsSeq pat7 ("<p>" : String).data = false ∧
     '"' ∉ ("other.md" : String).data ∧
     '"' ∉ ("http://external" : String).data) ∧
    sub_md_links ⟨[], "", false⟩
        (assemble [("<p>", "other.md"), (" and ", "http://external")] "</p>") =
      assemble
        ([("<p>", "other.md"), (" and ", "http://external")].map
          (fun pr => (pr.1, rewrite_target ⟨[], "", false⟩ pr.2))) "</p>" :=
  ⟨by decide,
   claim_C8 ⟨[], "", false⟩ [("<p>", "other.md"), (" and ", "http://external")]
     "</p>" (by decide) (by decide) (by decide)⟩
